import Mathlib

/-
  Shallow embedding of `paddlenlp/transformers/bigbird/tokenizer.py`
  (class `BigBirdTokenizer`).

  Token ids are `Int` (Python ints; `_convert_token_to_id` can produce
  negative ids for out-of-range extra labels).  Offset spans are `Nat × Nat`
  pairs.  The SentencePiece model and the generic tokenizer base class are
  external collaborators: they appear as abstract function fields of the
  `Tokenizer` structure.  Pure Python string manipulation (`str.startswith`,
  the regular expression `<extra_id_(\d+)>`, `int(...)`, f-string decimal
  formatting, `str.strip`) is embedded over `List Char` / `String`.
-/

namespace BigBird

/-- Models the failure raised when `re.match` returns `None` and the code
dereferences `match.group(1)`: the spec calls this `LabelParseError`. -/
structure LabelParseError where
  deriving DecidableEq

/-- The character sequence of the literal `"<extra_id_"` used both by
`str.startswith` and by the regular expression in `_convert_token_to_id`. -/
def extraIdMark : List Char := ['<', 'e', 'x', 't', 'r', 'a', '_', 'i', 'd', '_']

/-- Embedding of Python `str.startswith`: `beginsWith pat cs` is true exactly
when `pat` is an initial segment of `cs`. -/
def beginsWith : List Char → List Char → Bool
  | [], _ => true
  | _ :: _, [] => false
  | p :: ps, c :: cs => p == c && beginsWith ps cs

/-- Decimal digit character for `d < 10` (code point `48 + d`). -/
def digitChar (d : Nat) : Char := Char.ofNat (d + 48)

/-- Decimal value of a digit string, as computed by Python `int(...)` on a
string of digits. -/
def charsToNat (ds : List Char) : Nat :=
  ds.foldl (fun a c => 10 * a + (c.toNat - 48)) 0

/-- Fuel-driven decimal printer: the digits of `n` in base 10, most
significant first, for `0 < n ≤ fuel`. -/
def toDecimalAux : Nat → Nat → List Char
  | 0, _ => []
  | fuel + 1, n => if n = 0 then [] else toDecimalAux fuel (n / 10) ++ [digitChar (n % 10)]

/-- Embedding of Python decimal formatting `str(n)` for a natural number. -/
def natToChars (n : Nat) : List Char :=
  if n = 0 then ['0'] else toDecimalAux n n

/-- Embedding of Python `str(i)` for an integer (f-string interpolation). -/
def intToString (i : Int) : String :=
  if i < 0 then "-" ++ String.mk (natToChars i.natAbs) else String.mk (natToChars i.natAbs)

/-- Embedding of `re.match(r"<extra_id_(\d+)>", token)` followed by
`int(match.group(1))`.  The regex is anchored at the start of the string;
`(\d+)` is greedy, so with the trailing `>` the match succeeds exactly when
the literal is followed by a non-empty maximal digit run whose next character
is `>` (anything may follow).  Returns the parsed number, or `none` when the
regex does not match.  (`\d` is modelled as the ASCII digits.) -/
def parseExtraNum (cs : List Char) : Option Nat :=
  if beginsWith extraIdMark cs then
    let rest := cs.drop 10
    let ds := rest.takeWhile Char.isDigit
    if ds ≠ [] ∧ (rest.dropWhile Char.isDigit).head? = some '>' then
      some (charsToNat ds)
    else none
  else none

/-- The state of a `BigBirdTokenizer` after `__init__`.  External
collaborators are abstract fields:
`baseVocabSize` is `len(self.sp_model)` (= `sp_model.get_piece_size()`),
`spIdToPiece` is `sp_model.IdToPiece`, `spPieceToId` is
`sp_model.piece_to_id`, `decode_pieces` is `sp_model.decode_pieces`,
`all_special_tokens` is the special-token list maintained by the base class,
`eos_token_id` is the id of the end-of-sequence token, and
`super_special_tokens_mask` stands for the base-class
`get_special_tokens_mask` used when `already_has_special_tokens` is true
(that code is outside this file's source). -/
structure Tokenizer where
  baseVocabSize : Nat
  extra_ids : Nat
  eos_token_id : Int
  spIdToPiece : Int → String
  spPieceToId : String → Int
  all_special_tokens : List String
  decode_pieces : List String → String
  super_special_tokens_mask : List Int → Option (List Int) → List Int

/-- `vocab_size` property: `len(self.sp_model) + self.extra_ids`. -/
def Tokenizer.vocab_size (t : Tokenizer) : Nat :=
  t.baseVocabSize + t.extra_ids

/-- `_add_eos_if_not_present`: do not add eos again if the caller already
added it (the Python code also emits a warning in that branch; the warning is
a side effect with no influence on the returned data). -/
def _add_eos_if_not_present (t : Tokenizer) (token_ids : List Int) : List Int :=
  if 0 < token_ids.length ∧ token_ids.getLast? = some t.eos_token_id then
    token_ids
  else
    token_ids ++ [t.eos_token_id]

/-- `build_inputs_with_special_tokens`: single sequence `X </s>`, pair
`A </s> B </s>`. -/
def build_inputs_with_special_tokens (t : Tokenizer) (token_ids_0 : List Int)
    (token_ids_1 : Option (List Int)) : List Int :=
  let token_ids_0 := _add_eos_if_not_present t token_ids_0
  match token_ids_1 with
  | none => token_ids_0
  | some token_ids_1 => token_ids_0 ++ _add_eos_if_not_present t token_ids_1

/-- `build_offset_mapping_with_special_tokens`: appends the `(0, 0)` sentinel
for each special token slot. -/
def build_offset_mapping_with_special_tokens (offset_mapping_0 : List (Nat × Nat))
    (offset_mapping_1 : Option (List (Nat × Nat))) : List (Nat × Nat) :=
  match offset_mapping_1 with
  | none => offset_mapping_0 ++ [(0, 0)]
  | some offset_mapping_1 => offset_mapping_0 ++ [(0, 0)] ++ offset_mapping_1 ++ [(0, 0)]

/-- `create_token_type_ids_from_sequences`: `len(token_ids_0 + eos) * [0]`,
or `len(token_ids_0 + eos + token_ids_1 + eos) * [0]` for a pair. -/
def create_token_type_ids_from_sequences (t : Tokenizer) (token_ids_0 : List Int)
    (token_ids_1 : Option (List Int)) : List Int :=
  let eos := [t.eos_token_id]
  match token_ids_1 with
  | none => List.replicate (token_ids_0 ++ eos).length 0
  | some token_ids_1 => List.replicate (token_ids_0 ++ eos ++ token_ids_1 ++ eos).length 0

/-- `get_special_tokens_mask`: when `already_has_special_tokens` it delegates
to the base class; otherwise marks exactly the appended eos slots with `1`. -/
def get_special_tokens_mask (t : Tokenizer) (token_ids_0 : List Int)
    (token_ids_1 : Option (List Int)) (already_has_special_tokens : Bool) : List Int :=
  if already_has_special_tokens then
    t.super_special_tokens_mask token_ids_0 token_ids_1
  else
    match token_ids_1 with
    | none => List.replicate token_ids_0.length 0 ++ [1]
    | some token_ids_1 =>
        List.replicate token_ids_0.length 0 ++ [1] ++ List.replicate token_ids_1.length 0 ++ [1]

/-- One step of the loop body of `convert_tokens_to_string`: the state is
`(current_sub_tokens, out_string)`. -/
def ctts_step (t : Tokenizer) (st : List String × String) (token : String) :
    List String × String :=
  if t.all_special_tokens.contains token then
    ([], st.2 ++ t.decode_pieces st.1 ++ token ++ " ")
  else
    (st.1 ++ [token], st.2)

/-- `convert_tokens_to_string`: fold the loop body over the tokens starting
from `([], "")`, then flush the remaining buffer and `strip()` the result. -/
def convert_tokens_to_string (t : Tokenizer) (tokens : List String) : String :=
  let st := tokens.foldl (ctts_step t) ([], "")
  (st.2 ++ t.decode_pieces st.1).trim

/-- `_convert_token_to_id`: tokens starting with `"<extra_id_"` go through the
regex; a failed match makes `match.group(1)` raise (modelled as
`Except.error`); otherwise delegate to `sp_model.piece_to_id`. -/
def _convert_token_to_id (t : Tokenizer) (token : String) : Except LabelParseError Int :=
  if beginsWith extraIdMark token.toList then
    match parseExtraNum token.toList with
    | some num => Except.ok ((t.vocab_size : Int) - num - 1)
    | none => Except.error {}
  else
    Except.ok (t.spPieceToId token)

/-- `_convert_id_to_token`: ids below the SentencePiece size delegate to
`IdToPiece`; larger ids synthesize the f-string label
`"<extra_id_" + str(vocab_size - 1 - index) + ">"`. -/
def _convert_id_to_token (t : Tokenizer) (index : Int) : String :=
  if index < (t.baseVocabSize : Int) then
    t.spIdToPiece index
  else
    "<extra_id_" ++ intToString ((t.vocab_size : Int) - 1 - index) ++ ">"

/-- The `padding` argument of `__call__`: Python allows a string
(e.g. `"max_length"`, `"longest"`) or a boolean. -/
inductive PaddingArg where
  | ofString (s : String)
  | ofBool (b : Bool)
  deriving DecidableEq

/-- The legacy-kwarg translation performed at the top of `__call__` before
delegating to the base class: `pad_to_max_seq_len` is consulted only when
`padding` was not given; `max_seq_len` only when `max_length` was not given;
`truncation_strategy` overrides `truncation` only when it differs from
`"longest_first"`.  Returns the effective `(padding, max_length, truncation)`
triple passed to the superclass call. -/
def resolve_call_kwargs (padding : Option PaddingArg) (max_length : Option Int)
    (truncation : String) (kw_pad_to_max_seq_len : Option Bool)
    (kw_max_seq_len : Option Int) (kw_truncation_strategy : Option String) :
    PaddingArg × Option Int × String :=
  let padding : PaddingArg :=
    match padding, kw_pad_to_max_seq_len with
    | none, some b => if b then PaddingArg.ofString "max_length" else PaddingArg.ofBool false
    | none, none => PaddingArg.ofBool false
    | some p, _ => p
  let max_length : Option Int :=
    match max_length, kw_max_seq_len with
    | none, some m => some m
    | _, _ => max_length
  let truncation : String :=
    match kw_truncation_strategy with
    | some s => if s ≠ "longest_first" then s else truncation
    | none => truncation
  (padding, max_length, truncation)

/-- Modelled from the spec (§4.1 `decode`): the declarative description of
`convert_tokens_to_string` — ordinary pieces are accumulated into a buffer
and decoded together; a registered special token flushes the buffer and is
emitted verbatim followed by a single space.  Used as the specification side
of the refinement proof for the fold-based implementation. -/
def assembleRuns (t : Tokenizer) (buf : List String) : List String → String
  | [] => t.decode_pieces buf
  | token :: rest =>
      if t.all_special_tokens.contains token then
        t.decode_pieces buf ++ token ++ " " ++ assembleRuns t [] rest
      else
        assembleRuns t (buf ++ [token]) rest

/-- A token is a well-formed extra-token label (in the sense matched by the
regular expression of `_convert_token_to_id`) when it is the literal
`"<extra_id_"` followed by a non-empty digit run, then `>` (the regex does
not anchor the end of the string). -/
def isWellFormedExtraLabel (token : String) : Prop :=
  ∃ ds tl, ds ≠ [] ∧ (∀ c ∈ ds, c.isDigit = true) ∧
    token.toList = extraIdMark ++ (ds ++ '>' :: tl)

/-- A small concrete tokenizer used to evaluate the definitions on closed
inputs (eos id 1, base vocabulary of 6 pieces, 2 extra ids). -/
def sampleTok : Tokenizer where
  baseVocabSize := 6
  extra_ids := 2
  eos_token_id := 1
  spIdToPiece := fun _ => ""
  spPieceToId := fun _ => 0
  all_special_tokens := ["</s>"]
  decode_pieces := fun ps => String.join ps
  super_special_tokens_mask := fun _ _ => []

/-! ### Helper lemmas on the end-of-sequence insertion rule -/

theorem add_eos_of_getLast_eq (t : Tokenizer) (ids : List Int)
    (h : ids.getLast? = some t.eos_token_id) :
    _add_eos_if_not_present t ids = ids := by
  have hpos : 0 < ids.length := by
    cases ids with
    | nil => simp at h
    | cons a l => simp
  simp [_add_eos_if_not_present, hpos, h]

theorem add_eos_of_getLast_ne (t : Tokenizer) (ids : List Int)
    (h : ids.getLast? ≠ some t.eos_token_id) :
    _add_eos_if_not_present t ids = ids ++ [t.eos_token_id] := by
  unfold _add_eos_if_not_present
  rw [if_neg]
  rintro ⟨-, h2⟩
  exact h h2

theorem add_eos_getLast (t : Tokenizer) (ids : List Int) :
    (_add_eos_if_not_present t ids).getLast? = some t.eos_token_id := by
  by_cases h : ids.getLast? = some t.eos_token_id
  · rw [add_eos_of_getLast_eq t ids h, h]
  · rw [add_eos_of_getLast_ne t ids h,
      List.getLast?_append_of_ne_nil ids (by simp : ([t.eos_token_id] : List Int) ≠ [])]
    rfl

theorem add_eos_ne_nil (t : Tokenizer) (ids : List Int) :
    _add_eos_if_not_present t ids ≠ [] := by
  intro h
  have := add_eos_getLast t ids
  rw [h] at this
  simp at this

theorem add_eos_length_of_ne (t : Tokenizer) (ids : List Int)
    (h : ids.getLast? ≠ some t.eos_token_id) :
    (_add_eos_if_not_present t ids).length = ids.length + 1 := by
  rw [add_eos_of_getLast_ne t ids h]
  simp

/-! ### Helper lemmas on decimal formatting and the extra-label regex -/

theorem beginsWith_append (p r : List Char) : beginsWith p (p ++ r) = true := by
  induction p with
  | nil => rfl
  | cons c cs ih => simp [beginsWith, ih]

theorem beginsWith_exists_append (p l : List Char) (h : beginsWith p l = true) :
    ∃ r, l = p ++ r := by
  induction p generalizing l with
  | nil => exact ⟨l, rfl⟩
  | cons c cs ih =>
    cases l with
    | nil => simp [beginsWith] at h
    | cons a l' =>
      simp only [beginsWith, Bool.and_eq_true, beq_iff_eq] at h
      obtain ⟨r, hr⟩ := ih l' h.2
      exact ⟨r, by rw [h.1, hr]; rfl⟩

theorem digitChar_isDigit (d : Nat) (h : d < 10) : (digitChar d).isDigit = true := by
  interval_cases d <;> decide

theorem digitChar_val (d : Nat) (h : d < 10) : (digitChar d).toNat - 48 = d := by
  interval_cases d <;> decide

theorem toDecimalAux_eq (fuel : Nat) : ∀ n, n ≤ fuel →
    toDecimalAux fuel n = ((Nat.digits 10 n).map digitChar).reverse := by
  induction fuel with
  | zero =>
    intro n hn
    interval_cases n
    simp [toDecimalAux]
  | succ fuel ih =>
    intro n hn
    by_cases h0 : n = 0
    · subst h0; simp [toDecimalAux]
    · have hdiv : n / 10 ≤ fuel := by
        have := Nat.div_lt_self (Nat.pos_of_ne_zero h0) (by norm_num : 1 < 10)
        omega
      rw [toDecimalAux, if_neg h0, ih (n / 10) hdiv,
        Nat.digits_def' (by norm_num : 1 < 10) (Nat.pos_of_ne_zero h0)]
      simp

theorem natToChars_eq (n : Nat) :
    natToChars n = if n = 0 then ['0'] else ((Nat.digits 10 n).map digitChar).reverse := by
  unfold natToChars
  by_cases h0 : n = 0
  · simp [h0]
  · rw [if_neg h0, if_neg h0]
    exact toDecimalAux_eq n n le_rfl

theorem natToChars_all_digits (n : Nat) : ∀ c ∈ natToChars n, c.isDigit = true := by
  rw [natToChars_eq]
  by_cases h0 : n = 0
  · simp only [h0, if_pos]
    intro c hc
    simp only [List.mem_singleton] at hc
    subst hc
    decide
  · rw [if_neg h0]
    intro c hc
    rw [List.mem_reverse, List.mem_map] at hc
    obtain ⟨d, hd, rfl⟩ := hc
    exact digitChar_isDigit d (Nat.digits_lt_base (by norm_num) hd)

theorem natToChars_ne_nil (n : Nat) : natToChars n ≠ [] := by
  rw [natToChars_eq]
  by_cases h0 : n = 0
  · simp [h0]
  · rw [if_neg h0]
    simp [Nat.digits_ne_nil_iff_ne_zero.mpr h0]

theorem foldl_digits_reverse (L : List Nat) (hL : ∀ d ∈ L, d < 10) (a : Nat) :
    ((L.map digitChar).reverse).foldl (fun x c => 10 * x + (c.toNat - 48)) a
      = a * 10 ^ L.length + Nat.ofDigits 10 L := by
  induction L generalizing a with
  | nil => simp
  | cons d L ih =>
    have hd : d < 10 := hL d (by simp)
    have hL' : ∀ e ∈ L, e < 10 := fun e he => hL e (by simp [he])
    simp only [List.map_cons, List.reverse_cons, List.foldl_append, List.foldl_cons,
      List.foldl_nil, ih hL']
    rw [digitChar_val d hd, Nat.ofDigits_cons]
    simp only [List.length_cons, pow_succ]
    ring

theorem charsToNat_natToChars (n : Nat) : charsToNat (natToChars n) = n := by
  rw [natToChars_eq]
  by_cases h0 : n = 0
  · simp [h0, charsToNat]
  · rw [if_neg h0]
    unfold charsToNat
    rw [foldl_digits_reverse _ (fun d hd => Nat.digits_lt_base (by norm_num) hd) 0]
    simp [Nat.ofDigits_digits]

theorem takeWhile_all_append (p : Char → Bool) (l1 l2 : List Char)
    (h1 : ∀ c ∈ l1, p c = true) (h2 : ∀ c, l2.head? = some c → p c = false) :
    (l1 ++ l2).takeWhile p = l1 ∧ (l1 ++ l2).dropWhile p = l2 := by
  induction l1 with
  | nil =>
    cases l2 with
    | nil => simp
    | cons c l2' =>
      have := h2 c rfl
      simp [List.takeWhile_cons, List.dropWhile_cons, this]
  | cons a l1' ih =>
    have ha : p a = true := h1 a (by simp)
    have h1' : ∀ c ∈ l1', p c = true := fun c hc => h1 c (by simp [hc])
    obtain ⟨ht, hd⟩ := ih h1'
    simp [List.takeWhile_cons, List.dropWhile_cons, ha, ht, hd]

theorem drop_extraIdMark (r : List Char) : (extraIdMark ++ r).drop 10 = r := by
  rw [show 10 = extraIdMark.length from rfl]
  exact List.drop_left extraIdMark r

theorem parseExtraNum_wellformed (ds tl : List Char) (hne : ds ≠ [])
    (hdig : ∀ c ∈ ds, c.isDigit = true) :
    parseExtraNum (extraIdMark ++ (ds ++ '>' :: tl)) = some (charsToNat ds) := by
  unfold parseExtraNum
  rw [if_pos (beginsWith_append extraIdMark _)]
  have hsplit := takeWhile_all_append Char.isDigit ds ('>' :: tl) hdig
    (fun c hc => by
      simp only [List.head?_cons, Option.some.injEq] at hc
      subst hc
      decide)
  simp only [drop_extraIdMark, hsplit.1, hsplit.2]
  rw [if_pos ⟨hne, rfl⟩]

theorem parseExtraNum_some_wellformed (token : String) (n : Nat)
    (hp : parseExtraNum token.toList = some n) : isWellFormedExtraLabel token := by
  unfold parseExtraNum at hp
  by_cases hb : beginsWith extraIdMark token.toList = true
  · obtain ⟨r, hr⟩ := beginsWith_exists_append _ _ hb
    rw [if_pos hb, hr, drop_extraIdMark] at hp
    by_cases hc : r.takeWhile Char.isDigit ≠ [] ∧
        (r.dropWhile Char.isDigit).head? = some '>'
    · obtain ⟨hne, hhd⟩ := hc
      cases hdw : r.dropWhile Char.isDigit with
      | nil => rw [hdw] at hhd; simp at hhd
      | cons c tl =>
        rw [hdw] at hhd
        simp only [List.head?_cons, Option.some.injEq] at hhd
        subst hhd
        refine ⟨r.takeWhile Char.isDigit, tl, hne,
          fun c hc => List.mem_takeWhile_imp hc, ?_⟩
        have hr2 : r.takeWhile Char.isDigit ++ '>' :: tl = r := by
          rw [← hdw]
          exact List.takeWhile_append_dropWhile Char.isDigit r
        rw [hr, hr2]
    · rw [if_neg hc] at hp
      simp at hp
  · rw [if_neg hb] at hp
    simp at hp

theorem not_wellformed_no_digits : ¬ isWellFormedExtraLabel "<extra_id_>" := by
  rintro ⟨ds, tl, hne, -, heq⟩
  have hx : ("<extra_id_>").toList = extraIdMark ++ ['>'] := by decide
  rw [hx] at heq
  have := List.append_cancel_left heq
  have hlen := congrArg List.length this
  simp at hlen
  exact hne (List.eq_nil_of_length_eq_zero (by omega))

/-! ### Claim theorems -/

/-- Claim C2: `ensureEosSuffix` returns a sequence that already ends with the
end-of-sequence id unchanged, and otherwise appends the end-of-sequence id;
consequently `buildInputIds` on a single segment is idempotent on content
(the already-terminated branch additionally emits a non-fatal warning, a side
effect with no influence on the returned data). -/
theorem C2_ensure_eos_and_idempotence (t : Tokenizer) (ids : List Int) :
    (ids ≠ [] → ids.getLast? = some t.eos_token_id →
      _add_eos_if_not_present t ids = ids) ∧
    (¬(ids ≠ [] ∧ ids.getLast? = some t.eos_token_id) →
      _add_eos_if_not_present t ids = ids ++ [t.eos_token_id]) ∧
    build_inputs_with_special_tokens t (build_inputs_with_special_tokens t ids none) none
      = build_inputs_with_special_tokens t ids none := by
  refine ⟨fun _ h => add_eos_of_getLast_eq t ids h, fun h => ?_, ?_⟩
  · refine add_eos_of_getLast_ne t ids fun hlast => h ⟨?_, hlast⟩
    intro hnil
    rw [hnil] at hlast
    simp at hlast
  · show build_inputs_with_special_tokens t (_add_eos_if_not_present t ids) none
      = _add_eos_if_not_present t ids
    exact add_eos_of_getLast_eq t _ (add_eos_getLast t ids)

/-- Witness for C2 at concrete inputs: `[1]` already ends with the sample
end-of-sequence id `1` and is returned unchanged; `[2]` does not, so the
end-of-sequence id is appended. -/
theorem C2_ensure_eos_and_idempotence_witness :
    _add_eos_if_not_present sampleTok [1] = [1] ∧
    _add_eos_if_not_present sampleTok [2] = [2, 1] :=
  ⟨(C2_ensure_eos_and_idempotence sampleTok [1]).1 (by decide) (by decide),
   (C2_ensure_eos_and_idempotence sampleTok [2]).2.1 (by decide)⟩

/-- Claim C3: `buildInputIds(ids0)` with `ids1` absent is
`ensureEosSuffix(ids0)`; with both segments it is
`ensureEosSuffix(ids0) ++ ensureEosSuffix(ids1)` (format `A </s> B </s>`);
and `buildInputIds([])` is `[</s>]`. -/
theorem C3_build_inputs_concat (t : Tokenizer) (ids0 ids1 : List Int) :
    build_inputs_with_special_tokens t ids0 none = _add_eos_if_not_present t ids0 ∧
    build_inputs_with_special_tokens t ids0 (some ids1)
      = _add_eos_if_not_present t ids0 ++ _add_eos_if_not_present t ids1 ∧
    build_inputs_with_special_tokens t [] none = [t.eos_token_id] := by
  refine ⟨rfl, rfl, ?_⟩
  show _add_eos_if_not_present t [] = [t.eos_token_id]
  rw [add_eos_of_getLast_ne t [] (by simp)]
  rfl

/-- Claim C5: with `already_has_special_tokens = false` the special-tokens
mask is all zeros with a `1` at each appended end-of-sequence slot, e.g.
`[1,2]`, `[3,4]` gives `[0,0,1,0,0,1]`. -/
theorem C5_special_tokens_mask (t : Tokenizer) (ids0 ids1 : List Int) :
    get_special_tokens_mask t ids0 none false
      = List.replicate ids0.length 0 ++ [1] ∧
    get_special_tokens_mask t ids0 (some ids1) false
      = List.replicate ids0.length 0 ++ [1] ++ List.replicate ids1.length 0 ++ [1] ∧
    get_special_tokens_mask t [1, 2] (some [3, 4]) false = [0, 0, 1, 0, 0, 1] :=
  ⟨rfl, rfl, rfl⟩

/-- Claim C6: the offset mapping is the input spans with the `(0,0)` sentinel
appended after each segment, and `buildOffsetMapping([])` is `[(0,0)]`. -/
theorem C6_offset_mapping (spans0 spans1 : List (Nat × Nat)) :
    build_offset_mapping_with_special_tokens spans0 none = spans0 ++ [(0, 0)] ∧
    build_offset_mapping_with_special_tokens spans0 (some spans1)
      = spans0 ++ [(0, 0)] ++ spans1 ++ [(0, 0)] ∧
    build_offset_mapping_with_special_tokens [] none = [(0, 0)] :=
  ⟨rfl, rfl, rfl⟩

/-- Claim C10: every assembled sequence is non-empty and ends with the
end-of-sequence id; for a pair, the position just before the second segment
(index `len(ensureEosSuffix(ids0)) - 1`) also holds the end-of-sequence id. -/
theorem C10_eos_terminated (t : Tokenizer) (ids0 ids1 : List Int) :
    (build_inputs_with_special_tokens t ids0 none ≠ [] ∧
     (build_inputs_with_special_tokens t ids0 none).getLast? = some t.eos_token_id) ∧
    (build_inputs_with_special_tokens t ids0 (some ids1) ≠ [] ∧
     (build_inputs_with_special_tokens t ids0 (some ids1)).getLast? = some t.eos_token_id ∧
     (build_inputs_with_special_tokens t ids0 (some ids1))[(_add_eos_if_not_present t ids0).length - 1]?
       = some t.eos_token_id) := by
  refine ⟨⟨add_eos_ne_nil t ids0, add_eos_getLast t ids0⟩, ?_, ?_, ?_⟩
  · show _add_eos_if_not_present t ids0 ++ _add_eos_if_not_present t ids1 ≠ []
    simp [add_eos_ne_nil t ids0]
  · show (_add_eos_if_not_present t ids0 ++ _add_eos_if_not_present t ids1).getLast?
      = some t.eos_token_id
    rw [List.getLast?_append_of_ne_nil _ (add_eos_ne_nil t ids1)]
    exact add_eos_getLast t ids1
  · show (_add_eos_if_not_present t ids0 ++ _add_eos_if_not_present t ids1)[(_add_eos_if_not_present t ids0).length - 1]?
      = some t.eos_token_id
    have hpos : 0 < (_add_eos_if_not_present t ids0).length :=
      List.length_pos.mpr (add_eos_ne_nil t ids0)
    rw [List.getElem?_append_left (by omega)]
    rw [← List.getLast?_eq_getElem?]
    exact add_eos_getLast t ids0

/-- Counterexample to claim C1 as stated: when the first segment already ends
with the end-of-sequence id (here `[1]` with eos id `1`), the assembled
sequence has length 1, while the type-id array, the special-tokens mask and
the offset mapping (for a span list of the same length) all have length 2. -/
theorem C1_lengths_counterexample :
    (build_inputs_with_special_tokens sampleTok [1] none).length = 1 ∧
    (create_token_type_ids_from_sequences sampleTok [1] none).length = 2 ∧
    (get_special_tokens_mask sampleTok [1] none false).length = 2 ∧
    (build_offset_mapping_with_special_tokens [(0, 2)] none).length = 2 := by
  decide

/-- Claim C1, amended: if neither segment already ends with the
end-of-sequence id, then the type-id array, the special-tokens mask, and the
offset mapping (on span lists of the same lengths) all have length exactly
`len(buildInputIds(...))`, for a single segment and for a pair. -/
theorem C1_parallel_lengths (t : Tokenizer) (ids0 ids1 : List Int)
    (spans0 spans1 : List (Nat × Nat))
    (h0 : ids0.getLast? ≠ some t.eos_token_id)
    (h1 : ids1.getLast? ≠ some t.eos_token_id)
    (hs0 : spans0.length = ids0.length)
    (hs1 : spans1.length = ids1.length) :
    ((create_token_type_ids_from_sequences t ids0 none).length
        = (build_inputs_with_special_tokens t ids0 none).length ∧
     (get_special_tokens_mask t ids0 none false).length
        = (build_inputs_with_special_tokens t ids0 none).length ∧
     (build_offset_mapping_with_special_tokens spans0 none).length
        = (build_inputs_with_special_tokens t ids0 none).length) ∧
    ((create_token_type_ids_from_sequences t ids0 (some ids1)).length
        = (build_inputs_with_special_tokens t ids0 (some ids1)).length ∧
     (get_special_tokens_mask t ids0 (some ids1) false).length
        = (build_inputs_with_special_tokens t ids0 (some ids1)).length ∧
     (build_offset_mapping_with_special_tokens spans0 (some spans1)).length
        = (build_inputs_with_special_tokens t ids0 (some ids1)).length) := by
  have hb0 : (build_inputs_with_special_tokens t ids0 none).length = ids0.length + 1 :=
    add_eos_length_of_ne t ids0 h0
  have hb1 : (build_inputs_with_special_tokens t ids0 (some ids1)).length
      = ids0.length + 1 + (ids1.length + 1) := by
    show (_add_eos_if_not_present t ids0 ++ _add_eos_if_not_present t ids1).length = _
    rw [List.length_append, add_eos_length_of_ne t ids0 h0, add_eos_length_of_ne t ids1 h1]
  refine ⟨⟨?_, ?_, ?_⟩, ?_, ?_, ?_⟩
  · rw [hb0]; simp [create_token_type_ids_from_sequences]
  · rw [hb0]; simp [get_special_tokens_mask]
  · rw [hb0]; simp [build_offset_mapping_with_special_tokens, hs0]
  · rw [hb1]; simp [create_token_type_ids_from_sequences]; omega
  · rw [hb1]; simp [get_special_tokens_mask]; omega
  · rw [hb1]; simp [build_offset_mapping_with_special_tokens, hs0, hs1]; omega

/-- Witness for the amended C1 at concrete inputs: segments `[2]` and `[3]`
(neither ending with the sample eos id `1`) with span lists of the same
lengths. -/
theorem C1_parallel_lengths_witness :
    (create_token_type_ids_from_sequences sampleTok [2] (some [3])).length
      = (build_inputs_with_special_tokens sampleTok [2] (some [3])).length :=
  (C1_parallel_lengths sampleTok [2] [3] [(0, 2)] [(0, 3)]
    (by decide) (by decide) (by decide) (by decide)).2.1

/-- Claim C7: legacy-kwarg translation in `__call__`: `pad_to_max_seq_len`
determines the effective padding only when `padding` was not given
(`"max_length"` when true, `False` otherwise) and an explicit `padding`
always wins; `max_seq_len` becomes the effective max length only when
`max_length` was not given; `truncation_strategy` overrides `truncation`
exactly when it differs from `"longest_first"`. -/
theorem C7_legacy_kwargs (pd : Option PaddingArg) (p : PaddingArg) (b : Bool)
    (ml : Option Int) (m m0 : Int) (tr s : String) (kwp : Option Bool)
    (kwm : Option Int) (kwt : Option String) :
    ((resolve_call_kwargs none ml tr (some b) kwm kwt).1
        = if b then PaddingArg.ofString "max_length" else PaddingArg.ofBool false) ∧
    ((resolve_call_kwargs none ml tr none kwm kwt).1 = PaddingArg.ofBool false) ∧
    ((resolve_call_kwargs (some p) ml tr kwp kwm kwt).1 = p) ∧
    ((resolve_call_kwargs pd none tr kwp (some m) kwt).2.1 = some m) ∧
    ((resolve_call_kwargs pd (some m0) tr kwp (some m) kwt).2.1 = some m0) ∧
    ((resolve_call_kwargs pd ml tr kwp kwm (some s)).2.2
        = if s = "longest_first" then tr else s) ∧
    ((resolve_call_kwargs pd ml tr kwp kwm none).2.2 = tr) := by
  refine ⟨rfl, rfl, ?_, ?_, ?_, ?_, ?_⟩ <;>
    cases pd <;> cases kwp <;>
      by_cases hs : s = "longest_first" <;>
        simp [resolve_call_kwargs, hs]

/-- The fold of the `convert_tokens_to_string` loop body, started from an
arbitrary buffer and output accumulator, produces the output described by the
run-based specification `assembleRuns`. -/
theorem ctts_fold (t : Tokenizer) (ts : List String) : ∀ cur out,
    ((ts.foldl (ctts_step t) (cur, out)).2
        ++ t.decode_pieces (ts.foldl (ctts_step t) (cur, out)).1)
      = out ++ assembleRuns t cur ts := by
  induction ts with
  | nil => intro cur out; simp [assembleRuns]
  | cons tok ts ih =>
    intro cur out
    by_cases h : t.all_special_tokens.contains tok
    · have hm : tok ∈ t.all_special_tokens := by simpa using h
      simp only [List.foldl_cons, ctts_step, h, if_pos]
      rw [ih]
      simp [assembleRuns, hm, String.append_assoc]
    · have hm : tok ∉ t.all_special_tokens := by simpa using h
      simp only [List.foldl_cons, ctts_step, h, if_neg, Bool.false_eq_true,
        not_false_eq_true]
      rw [ih]
      simp [assembleRuns, hm]

/-- Claim C9: `convert_tokens_to_string` equals the declarative description —
maximal runs of ordinary pieces are decoded together through
`sp_model.decode_pieces`, each registered special token is emitted verbatim
followed by a single space and flushes the pending buffer, and the final
result is trimmed of leading and trailing whitespace. -/
theorem C9_decode_special_flush (t : Tokenizer) (tokens : List String) :
    convert_tokens_to_string t tokens = (assembleRuns t [] tokens).trim := by
  have h := ctts_fold t tokens [] ""
  rw [String.empty_append] at h
  show ((tokens.foldl (ctts_step t) ([], "")).2
      ++ t.decode_pieces (tokens.foldl (ctts_step t) ([], "")).1).trim = _
  rw [h]

/-- Claim C4: `vocab_size` is `baseVocabSize + extra_ids`, and for every
extra index `k < extra_ids`, converting id `vocab_size - 1 - k` to a token
yields the label `<extra_id_` followed by the decimal of `k` and `>`, and
converting that label back yields id `vocab_size - 1 - k`. -/
theorem C4_extra_id_round_trip (t : Tokenizer) (k : Nat) (hk : k < t.extra_ids) :
    t.vocab_size = t.baseVocabSize + t.extra_ids ∧
    _convert_id_to_token t ((t.vocab_size : Int) - 1 - k)
      = "<extra_id_" ++ String.mk (natToChars k) ++ ">" ∧
    _convert_token_to_id t ("<extra_id_" ++ String.mk (natToChars k) ++ ">")
      = Except.ok ((t.vocab_size : Int) - 1 - k) := by
  have hv : (t.vocab_size : Int) = (t.baseVocabSize : Int) + (t.extra_ids : Int) := by
    unfold Tokenizer.vocab_size
    push_cast
    ring
  have htl : ("<extra_id_" ++ String.mk (natToChars k) ++ ">").toList
      = extraIdMark ++ (natToChars k ++ ['>']) := by
    show ("<extra_id_" ++ String.mk (natToChars k) ++ ">").data = _
    have h1 : ("<extra_id_").data = extraIdMark := by decide
    have h3 : (">").data = ['>'] := by decide
    rw [String.data_append, String.data_append, h1, h3, List.append_assoc]
  refine ⟨rfl, ?_, ?_⟩
  · unfold _convert_id_to_token
    rw [if_neg (by omega)]
    have harg : (t.vocab_size : Int) - 1 - ((t.vocab_size : Int) - 1 - (k : Int)) = (k : Int) := by
      ring
    rw [harg]
    unfold intToString
    rw [if_neg (by omega)]
    simp
  · unfold _convert_token_to_id
    simp only [htl]
    rw [if_pos (beginsWith_append _ _),
      parseExtraNum_wellformed (natToChars k) [] (natToChars_ne_nil k)
        (natToChars_all_digits k),
      charsToNat_natToChars k]
    show Except.ok ((t.vocab_size : Int) - (k : Nat) - 1) = _
    congr 1
    ring

/-- Witness for C4 at the concrete sample tokenizer (vocab size 8, extra
index 0, extra id 7). -/
theorem C4_extra_id_round_trip_witness :
    _convert_id_to_token sampleTok 7 = "<extra_id_0>" ∧
    _convert_token_to_id sampleTok "<extra_id_0>" = Except.ok 7 := by
  have h := C4_extra_id_round_trip sampleTok 0 (by decide)
  exact ⟨h.2.1, h.2.2⟩

/-- Claim C8: a token that begins with `"<extra_id_"` but is not a
well-formed extra-token label (no digits, or non-numeric contents before the
closing `>`) makes `_convert_token_to_id` fail with the label-parse error
rather than return an id. -/
theorem C8_malformed_label (t : Tokenizer) (token : String)
    (hb : beginsWith extraIdMark token.toList = true)
    (hw : ¬ isWellFormedExtraLabel token) :
    _convert_token_to_id t token = Except.error {} := by
  unfold _convert_token_to_id
  rw [if_pos hb]
  cases hp : parseExtraNum token.toList with
  | none => rfl
  | some n => exact absurd (parseExtraNum_some_wellformed token n hp) hw

/-- Witness for C8 at the claim's own example `"<extra_id_>"` (digit run
empty). -/
theorem C8_malformed_label_witness :
    _convert_token_to_id sampleTok "<extra_id_>" = Except.error {} :=
  C8_malformed_label sampleTok "<extra_id_>" (by decide) not_wellformed_no_digits

end BigBird
